import Mathlib

/-!
Verification of the display-state core of the dwv medical-image viewer
(`src/image/view.js` : the `View` entity, and the `Stage`/Binder
synchronisation engine bundled in the same file).

The JavaScript is shallowly embedded: machine numbers become `ℚ`/`ℤ`/`ℕ`,
JS objects keyed by strings become association lists preserving insertion
order (JS objects enumerate string keys in insertion order, and assigning
to an existing key keeps its position), thrown exceptions become explicit
error results, and the synchronous listener/event machinery becomes
explicit event lists and, for the Stage, an explicit listener table with
fuelled synchronous dispatch.

Collaborator objects that live outside the two source files under study
(`Geometry`, `Image`, the math `Index`, `dwv.utils.ListenerHandler`) are
kept abstract (record fields of functions) or are modelled from the
specification; each such definition says so in its doc comment.
-/

namespace Dwv

/-- An image-space index: ordered tuple of integer offsets.
Modelled from the spec: `dwv.math.Index` is an out-of-scope value type;
the spec describes it as an ordered sequence of integers. -/
abbrev Index := List ℤ

/-- A world-space position: ordered tuple of rational coordinates.
Modelled from the spec: `dwv.math.Point` is an out-of-scope value type. -/
abbrev Position := List ℚ

/-- An immutable window/level pair (`dwv.image.WindowLevel`).
Modelled from the spec: the value type lives outside the studied files;
the spec states its equality is value equality on (center, width). -/
structure WindowLevel where
  center : ℚ
  width : ℚ
deriving DecidableEq, Repr

/-- Model of `wl.equals(rhs)` where `rhs` may be null: value equality, false on null.
Modelled from the spec (§4.1): WindowLevel equality is value equality on
(center, width). -/
def wlEquals (a : WindowLevel) (b : Option WindowLevel) : Bool :=
  match b with
  | none => false
  | some b => decide (a = b)

/-- A rescale slope / intercept pair (RSI). Its JS `toString` is injective
on distinct (slope, intercept) pairs, so the cache key is modelled by the
pair itself. -/
abbrev RSI := ℚ × ℚ

/-- Model of `dwv.image.RescaleLut`: remembers the RSI and bit depth it was built
from (the derived table is not needed by the claims). -/
structure RescaleLut where
  rsi : RSI
  bitsStored : ℕ
deriving DecidableEq, Repr

/-- Model of `dwv.image.WindowLut`: a rescale LUT, the signedness flag, and the
currently stored window level (none until `setWindowLevel` is called). -/
structure WindowLut where
  rescaleLut : RescaleLut
  isSigned : Bool
  wl : Option WindowLevel
deriving DecidableEq, Repr

/-- A window preset registry entry: `{wl: array of WindowLevel or
undefined, perslice: flag}` (the `name` field of the JS object is the
registry key and is not duplicated here). -/
structure Preset where
  wl : Option (List WindowLevel)
  perslice : Bool
deriving DecidableEq, Repr

/-- The preset registry: a JS object keyed by preset name, kept in
insertion order. -/
abbrev Registry := List (String × Preset)

/-- Key lookup in a JS object modelled as an association list. -/
def getPreset (reg : Registry) (k : String) : Option Preset :=
  (reg.find? (fun e => decide (e.1 = k))).map Prod.snd

/-- Assignment to an existing key of a JS object: the value is replaced in
place, the key keeps its position. -/
def replaceEntry (reg : Registry) (k : String) (p : Preset) : Registry :=
  reg.map (fun e => if e.1 = k then (k, p) else e)

/-- Events fired through the View's listener handler. -/
inductive ViewEvent
| wlchange (wc ww : ℚ) (skipGenerate : Bool)
| wlpresetadd (name : String)
| positionchange (ivals : List ℤ) (pvals : List ℚ) (diffDims : List ℕ)
    (imageUid : String) (pixValue : Option ℚ)
| alphafuncchange
deriving DecidableEq, Repr

/-- Whether an event is a `positionchange`. -/
def ViewEvent.isPositionChange : ViewEvent → Bool
  | .positionchange _ _ _ _ _ => true
  | _ => false

/-- The Geometry collaborator, consumed as an opaque interface
(spec §1: its internals are not specified; only its contract is used). -/
structure Geometry where
  worldToIndex : Position → Index
  indexToWorld : Index → Position
  isIndexInBounds : Index → List ℕ → Bool
  sizeLength : ℕ

/-- The Image collaborator, consumed as an opaque interface (spec §6).
`rsiForIndex` is `getRescaleSlopeAndIntercept(index)`, `rsi0` is
`getRescaleSlopeAndIntercept(0)`. -/
structure ImageModel where
  geometry : Geometry
  rsiForIndex : Index → RSI
  rsi0 : RSI
  bitsStored : ℕ
  isSigned : Bool
  secondaryOffset : Index → ℕ
  rescaledRange : ℚ × ℚ
  canQuantify : Bool
  rescaledValueAt : Index → ℚ
  imageUid : Index → String

/-- The private state of a `dwv.image.View` closure. `windowLuts` is the
JS object `windowLuts` keyed by `rsi.toString()`; `orientation` is
reduced to the scroll direction it yields via
`getThirdColMajorDirection`. -/
structure ViewState where
  windowLuts : List (RSI × WindowLut)
  windowPresets : Registry
  currentPresetName : Option String
  currentWl : Option WindowLevel
  currentPosition : Option Position
  orientation : Option ℕ
deriving DecidableEq

/-- The freshly constructed View state: presets hold the unresolved
`minmax` entry, everything else unset. -/
def initialViewState : ViewState :=
  { windowLuts := []
    windowPresets := [("minmax", { wl := none, perslice := false })]
    currentPresetName := none
    currentWl := none
    currentPosition := none
    orientation := none }

/-- Model of `view.getScrollIndex()`: third column-major direction of the
orientation if set, else 2. -/
def getScrollIndex (v : ViewState) : ℕ :=
  match v.orientation with
  | some d => d
  | none => 2

/-- Model of `view.getCurrentIndex()`: null without a position, else the position
converted through the geometry. -/
def getCurrentIndex (img : ImageModel) (v : ViewState) : Option Index :=
  v.currentPosition.map img.geometry.worldToIndex

/-- Model of `view.setWindowLevel(center, width, name, silent)`: rejects width < 1,
otherwise replaces the current level and preset name when the new level
differs by value, firing `wlchange` only when center or width changed
numerically. Returns the new state and the fired events. -/
def setWindowLevel (v : ViewState) (center width : ℚ) (name : String)
    (silent : Bool) : ViewState × List ViewEvent :=
  if width < 1 then
    (v, [])
  else
    let newWl : WindowLevel := ⟨center, width⟩
    let isNew := ¬ wlEquals newWl v.currentWl
    if isNew then
      let isNewWidth := match v.currentWl with
        | some cw => decide (cw.width ≠ width)
        | none => true
      let isNewCenter := match v.currentWl with
        | some cw => decide (cw.center ≠ center)
        | none => true
      let v1 := { v with currentWl := some newWl, currentPresetName := some name }
      if isNewWidth || isNewCenter then
        (v1, [ViewEvent.wlchange center width silent])
      else
        (v1, [])
    else
      (v, [])

/-- Model of `view.getWindowLevelMinMax()`: window covering the image's rescaled
data range, width clamped up to 1. -/
def getWindowLevelMinMax (img : ImageModel) : WindowLevel :=
  let min := img.rescaledRange.1
  let max := img.rescaledRange.2
  let width0 := max - min
  let width := if width0 < 1 then 1 else width0
  ⟨min + width / 2, width⟩

/-- Model of `view.addWindowPresets(presets)`: processes the supplied presets in
key order; an existing per-slice name throws (mutations already made
stay), an existing plain name is replaced silently, a new name is
appended and fires `wlpresetadd`. The Bool is true when the call threw. -/
def addWindowPresets (reg : Registry) :
    List (String × Preset) → Registry × List ViewEvent × Bool
  | [] => (reg, [], false)
  | (k, p) :: rest =>
    match getPreset reg k with
    | some q =>
      if q.perslice then
        (reg, [], true)
      else
        addWindowPresets (replaceEntry reg k p) rest
    | none =>
      let r := addWindowPresets (reg ++ [(k, p)]) rest
      (r.1, ViewEvent.wlpresetadd k :: r.2.1, r.2.2)

/-- Model of `view.setWindowPresets(presets)`: replaces the whole registry. -/
def setWindowPresets (v : ViewState) (presets : Registry) : ViewState :=
  { v with windowPresets := presets }

/-- Model of `index.compare(rhs)` for two indices of equal length.
Modelled from the spec (§4.1): comparison of two indices of equal length
produces the list of differing dimension positions. -/
def compareIdx (a b : Index) : List ℕ :=
  (List.range a.length).filter (fun i => decide (a.getD i 0 ≠ b.getD i 0))

/-- The diff-dims computation inlined in `view.setCurrentIndex`: equal
lengths use `Index.compare`; unequal lengths compare up to the shorter
length and then mark every dimension from the shorter up to the longer
length; with no previous index every dimension of the new index counts. -/
def diffDims (prev : Option Index) (index : Index) : List ℕ :=
  match prev with
  | some ci =>
    if ci.length = index.length then
      compareIdx ci index
    else
      let minLen := Nat.min ci.length index.length
      let maxLen := Nat.max ci.length index.length
      ((List.range minLen).filter (fun i => decide (ci.getD i 0 ≠ index.getD i 0)))
        ++ List.range' minLen (maxLen - minLen)
  | none => List.range index.length

/-- Model of `view.setCurrentIndex(index, silent)`: bounds-check along the scroll
dimension (plus dimension 3 for 4-component indices); out of bounds
returns false with no mutation and no event; in bounds commits the
converted position and, unless silent, fires one `positionchange`.
Returns (new state, fired events, returned boolean). -/
def setCurrentIndex (img : ImageModel) (v : ViewState) (index : Index)
    (silent : Bool) : ViewState × List ViewEvent × Bool :=
  let geometry := img.geometry
  let position := geometry.indexToWorld index
  let dirs := [getScrollIndex v] ++ (if index.length = 4 then [3] else [])
  if ¬ geometry.isIndexInBounds index dirs then
    (v, [], false)
  else
    let currentIndex := getCurrentIndex img v
    let dd := diffDims currentIndex index
    let v1 := { v with currentPosition := some position }
    if silent then
      (v1, [], true)
    else
      let pixValue : Option ℚ :=
        if img.canQuantify then some (img.rescaledValueAt index) else none
      (v1,
        [ViewEvent.positionchange index position dd
          (img.imageUid index) pixValue],
        true)

/-- Model of `view.setInitialIndex()`: sets the all-zero index, silently. -/
def setInitialIndex (img : ImageModel) (v : ViewState) :
    ViewState × List ViewEvent × Bool :=
  setCurrentIndex img v (List.replicate img.geometry.sizeLength 0) true

/-- Model of `view.setWindowLevelPreset(name, silent)`: resolves the named preset
(lazily filling `minmax` from the image range), selects the per-slice
entry when flagged, and delegates to `setWindowLevel`. Unknown names and
missing window-level entries are errors (the JS throws or crashes). -/
def setWindowLevelPreset (img : ImageModel) (v : ViewState) (name : String)
    (silent : Bool) : Except String (ViewState × List ViewEvent) :=
  match getPreset v.windowPresets name with
  | none => .error "Unknown window level preset"
  | some preset =>
    let filled : ViewState × Preset :=
      if name = "minmax" ∧ preset.wl = none then
        let p : Preset := { preset with wl := some [getWindowLevelMinMax img] }
        ({ v with windowPresets := replaceEntry v.windowPresets name p }, p)
      else (v, preset)
    let v1 := filled.1
    let preset := filled.2
    let wlOpt : Option WindowLevel :=
      if preset.perslice then
        match getCurrentIndex img v1 with
        | some idx => (preset.wl.getD []).get? (img.secondaryOffset idx)
        | none => none
      else
        (preset.wl.getD []).get? 0
    match wlOpt with
    | none => .error "No window level value in preset"
    | some wl => .ok (setWindowLevel v1 wl.center wl.width name silent)

/-- Model of `view.setWindowLevelPresetById(id, silent)`: activates the id-th key
of the preset registry (insertion order). -/
def setWindowLevelPresetById (img : ImageModel) (v : ViewState) (id : ℕ)
    (silent : Bool) : Except String (ViewState × List ViewEvent) :=
  match (v.windowPresets.map Prod.fst).get? id with
  | none => .error "Unknown window level preset"
  | some name => setWindowLevelPreset img v name silent

/-- Lookup in the `windowLuts` JS object by RSI string key. -/
def lutLookup (luts : List (RSI × WindowLut)) (rsi : RSI) : Option WindowLut :=
  (luts.find? (fun e => decide (e.1 = rsi))).map Prod.snd

/-- Assignment `windowLuts[key] = wlut`: replace in place if the key
exists, append otherwise. -/
def lutStore (luts : List (RSI × WindowLut)) (rsi : RSI) (wlut : WindowLut) :
    List (RSI × WindowLut) :=
  if (luts.find? (fun e => decide (e.1 = rsi))).isSome then
    luts.map (fun e => if e.1 = rsi then (rsi, wlut) else e)
  else
    luts ++ [(rsi, wlut)]

/-- Model of `view.addWindowLut(wlut)`: stores the LUT under the string key of its
own rescale LUT's RSI. -/
def addWindowLut (v : ViewState) (wlut : WindowLut) : ViewState :=
  { v with windowLuts := lutStore v.windowLuts wlut.rescaleLut.rsi wlut }

/-- The target window-level resolution step of `view.getCurrentWindowLut`:
the per-slice entry of the active preset when flagged, else the current
level, lazily defaulting through `setWindowLevelPresetById(0, true)`. -/
def resolveTargetWl (img : ImageModel) (v1 : ViewState)
    (currentIndex : Index) :
    Except String (ViewState × List ViewEvent × WindowLevel) :=
  let wl0 : Option WindowLevel :=
    match v1.currentPresetName with
    | some name =>
      match getPreset v1.windowPresets name with
      | some preset =>
        if preset.perslice then
          (preset.wl.getD []).get? (img.secondaryOffset currentIndex)
        else none
      | none => none
    | none => none
  match wl0 with
  | some w => .ok (v1, [], w)
  | none =>
    match v1.currentWl with
    | some cw => .ok (v1, [], cw)
    | none =>
      match setWindowLevelPresetById img v1 0 true with
      | .error e => .error e
      | .ok (v2, evts) =>
        match v2.currentWl with
        | some cw => .ok (v2, evts, cw)
        | none => .error "No current window level"

/-- The cache resolution and refresh step of `view.getCurrentWindowLut`:
look the per-call RSI up in `windowLuts`; on a miss construct a fresh
WindowLut over a RescaleLut anchored at the slice-0 RSI and store it via
`addWindowLut` (whose key is that RescaleLut's own RSI); then, when the
LUT's stored level differs by value from the target, replace it
(mutating the cached object in place) and fire `wlchange` with
`skipGenerate: true` if center or width changed numerically. -/
def updateLutWithWl (img : ImageModel) (v2 : ViewState) (rsi : RSI)
    (wl : WindowLevel) : ViewState × List ViewEvent × WindowLut :=
  let found : ViewState × RSI × WindowLut :=
    match lutLookup v2.windowLuts rsi with
    | some wlut => (v2, rsi, wlut)
    | none =>
      let rescaleLut : RescaleLut := ⟨img.rsi0, img.bitsStored⟩
      let windowLut : WindowLut := ⟨rescaleLut, img.isSigned, none⟩
      (addWindowLut v2 windowLut, rescaleLut.rsi, windowLut)
  let v3 := found.1
  let key := found.2.1
  let wlut := found.2.2
  let lutWl := wlut.wl
  if ¬ wlEquals wl lutWl then
    let wlut1 := { wlut with wl := some wl }
    let v4 := { v3 with windowLuts := lutStore v3.windowLuts key wlut1 }
    let fire : Bool :=
      match lutWl with
      | none => true
      | some lw => decide (lw.width ≠ wl.width) || decide (lw.center ≠ wl.center)
    if fire then
      (v4, [ViewEvent.wlchange wl.center wl.width true], wlut1)
    else
      (v4, [], wlut1)
  else
    (v3, [], wlut)

/-- Model of `view.getCurrentWindowLut(rsi)`: ensures a current index, resolves the
per-call RSI (argument, else the image RSI at the current index) and the
target window level (`resolveTargetWl`), then resolves/constructs and
refreshes the cached window LUT (`updateLutWithWl`).
Returns (new state, fired events, returned LUT). -/
def getCurrentWindowLut (img : ImageModel) (v0 : ViewState)
    (rsiArg : Option RSI) :
    Except String (ViewState × List ViewEvent × WindowLut) :=
  let v1 := if (getCurrentIndex img v0).isNone then (setInitialIndex img v0).1 else v0
  match getCurrentIndex img v1 with
  | none => .error "No current index"
  | some currentIndex =>
    let rsi := rsiArg.getD (img.rsiForIndex currentIndex)
    match resolveTargetWl img v1 currentIndex with
    | .error e => .error e
    | .ok (v2, evts1, wl) =>
      let r := updateLutWithWl img v2 rsi wl
      .ok (r.1, evts1 ++ r.2.1, r.2.2)

/-!
## Stage synchronisation (`dwv.gui.Stage`)

Model for the window/level Binder wiring with one active binder and `n`
layer groups, numbered `0..n-1`. Within one bound period
`getBinderCallback` returns the identical memoized callback for a
(binder, peer) pair (proved separately on the callback-store model
below), so the listener registered on group `g` that forwards to peer
`p` is identified by `p`; a listener row `rows g` is the ordered list of
peers `p` whose forwarding callback is currently registered on `g`.
Event dispatch is synchronous, in registration order; applying the
window/level binder to a peer mutates it (counted in `muts`) and
synchronously fires that peer's own `wlchange`, which is modelled by the
recursive call. -/

/-- Stage listener/mutation state for the dispatch model. -/
@[ext]
structure StageSt where
  rows : ℕ → List ℕ
  muts : ℕ → ℕ

/-- Model of `removeEventListeners(p, binder)`: for every `i ≠ p` remove the
memoized callback `getBinderCallback(binder, i)` from group `p`
(`ListenerHandler.remove` drops the first matching reference; modelled
from the spec: removal is by reference identity). -/
def removeListeners (n p : ℕ) (rows : ℕ → List ℕ) : ℕ → List ℕ :=
  Function.update rows p
    ((List.range n).foldl (fun r i => if i ≠ p then r.erase i else r) (rows p))

/-- Model of `addEventListeners(p, binder)`: for every `i ≠ p` register the
memoized callback `getBinderCallback(binder, i)` on group `p`
(appended in index order). -/
def addListeners (n p : ℕ) (rows : ℕ → List ℕ) : ℕ → List ℕ :=
  Function.update rows p
    ((List.range n).foldl (fun r i => if i ≠ p then r ++ [i] else r) (rows p))

/-- Body of the memoized binder callback for peer `p`
(view.js `getBinderCallback`): stop `p`'s forwarding listeners, apply the
binder to `p` (one window/level mutation followed by `p`'s own
synchronous `wlchange` dispatch, `rec`), restart the listeners. -/
def stepPeerWith (n : ℕ) (rec : ℕ → StageSt → StageSt) (t : StageSt) (p : ℕ) :
    StageSt :=
  let t1 : StageSt := { t with rows := removeListeners n p t.rows }
  let t2 : StageSt := { t1 with muts := Function.update t1.muts p (t1.muts p + 1) }
  let t3 := rec p t2
  { t3 with rows := addListeners n p t3.rows }

/-- Synchronous `wlchange` dispatch on group `g`: run the listeners
registered on `g` in registration order. The fuel bounds the re-entrant
dispatch depth; a fuelled-out dispatch invokes nothing. -/
def fireWl (n : ℕ) : ℕ → ℕ → StageSt → StageSt
  | 0, _, s => s
  | fuel + 1, g, s =>
    (s.rows g).foldl (stepPeerWith n (fun p t => fireWl n fuel p t)) s

/-- The listener rows right after `bindLayerGroups`: group `g` carries
the forwarding callbacks for every peer `j ≠ g`, in index order. -/
def boundRows (n : ℕ) : ℕ → List ℕ :=
  fun g => (List.range n).filter (fun j => decide (j ≠ g))

/-- The stage state right after `bindLayerGroups`, before any event. -/
def initStage (n : ℕ) : StageSt :=
  { rows := boundRows n, muts := fun _ => 0 }

/-!
## Stage callback store (`dwv.gui.Stage` : `callbackStore`)

Model for callback-reference identity. Each JS closure created by
`getBinderCallback` is a fresh object; identity is modelled by a
monotone counter, so two callbacks are the same function reference
exactly when their ids are equal. `store` is `callbackStore` (null when
unbound; rows default to `[]`, matching the lazy `= []` initialisation),
and `listeners` records the currently registered (group, event-binder,
callback id) listener entries. -/

/-- Callback-store rows: for each layer-group index, the stored
`{binder, callback}` pairs as (binder id, callback id). -/
abbrev CbRows := ℕ → List (ℕ × ℕ)

/-- Model of `getBinderCallback(binder, index)` on the store rows: return the
memoized callback id if present, else create a fresh one and store it.
Returns (callback id, new rows, new fresh counter). -/
def getBinderCallback (rows : CbRows) (nextCb : ℕ) (binder idx : ℕ) :
    ℕ × CbRows × ℕ :=
  match (rows idx).find? (fun e => decide (e.1 = binder)) with
  | some e => (e.2, rows, nextCb)
  | none =>
    (nextCb, Function.update rows idx (rows idx ++ [(binder, nextCb)]), nextCb + 1)

/-- Full bind/unbind state of the Stage callback machinery. -/
structure BindSt where
  store : Option CbRows
  nextCb : ℕ
  listeners : List (ℕ × ℕ × ℕ)

/-- Model of `addEventListeners(index, binder)`: register on group `index`, for
every other group `i`, the memoized callback for (binder, i). -/
def addEvtListeners (n : ℕ) (idx binder : ℕ) (rows : CbRows) (nextCb : ℕ)
    (ls : List (ℕ × ℕ × ℕ)) : CbRows × ℕ × List (ℕ × ℕ × ℕ) :=
  (List.range n).foldl
    (fun acc i =>
      if i ≠ idx then
        let g := getBinderCallback acc.1 acc.2.1 binder i
        (g.2.1, g.2.2, acc.2.2 ++ [(idx, binder, g.1)])
      else acc)
    (rows, nextCb, ls)

/-- Model of `removeEventListeners(index, binder)`: remove from group `index`, for
every other group `i`, the memoized callback for (binder, i)
(`ListenerHandler.remove` drops the first entry with that exact
reference; modelled from the spec: removal is by reference identity). -/
def removeEvtListeners (n : ℕ) (idx binder : ℕ) (rows : CbRows) (nextCb : ℕ)
    (ls : List (ℕ × ℕ × ℕ)) : CbRows × ℕ × List (ℕ × ℕ × ℕ) :=
  (List.range n).foldl
    (fun acc i =>
      if i ≠ idx then
        let g := getBinderCallback acc.1 acc.2.1 binder i
        (g.2.1, g.2.2, acc.2.2.erase (idx, binder, g.1))
      else acc)
    (rows, nextCb, ls)

/-- Model of `stage.bindLayerGroups()` with `n` layer groups and the given binder
ids: no-op for fewer than two groups or no binders; otherwise installs a
fresh callback store and registers all pairwise listeners. -/
def bindLayerGroups (n : ℕ) (binders : List ℕ) (st : BindSt) : BindSt :=
  if n ≤ 1 ∨ binders = [] then st
  else
    let rows0 : CbRows := fun _ => []
    let r :=
      (List.range n).foldl
        (fun acc i =>
          binders.foldl
            (fun acc b =>
              let a := addEvtListeners n i b acc.1 acc.2.1 acc.2.2
              (a.1, a.2.1, a.2.2))
            acc)
        (rows0, st.nextCb, st.listeners)
    { store := some r.1, nextCb := r.2.1, listeners := r.2.2 }

/-- Model of `stage.unbindLayerGroups()`: no-op for fewer than two groups, no
binders, or a null callback store; otherwise removes all pairwise
listeners through the memoized store and clears the store. -/
def unbindLayerGroups (n : ℕ) (binders : List ℕ) (st : BindSt) : BindSt :=
  if n ≤ 1 ∨ binders = [] ∨ st.store.isNone then st
  else
    let rows0 : CbRows := st.store.getD (fun _ => [])
    let r :=
      (List.range n).foldl
        (fun acc i =>
          binders.foldl
            (fun acc b =>
              let a := removeEvtListeners n i b acc.1 acc.2.1 acc.2.2
              (a.1, a.2.1, a.2.2))
            acc)
        (rows0, st.nextCb, st.listeners)
    { store := none, nextCb := r.2.1, listeners := r.2.2 }

/-- The callback id currently stored for (binder, index), if bound. -/
def callbackIdFor (st : BindSt) (binder idx : ℕ) : Option ℕ :=
  match st.store with
  | none => none
  | some rows => ((rows idx).find? (fun e => decide (e.1 = binder))).map Prod.snd

/-- A Stage before any binding. -/
def initBindSt : BindSt :=
  { store := none, nextCb := 0, listeners := [] }

/-!
## Concrete collaborators used by the witnesses and counterexamples
-/

/-- A concrete 10×10×10 geometry: identity-like conversions, bounds check
along the supplied dimensions against `[0, 10)`. -/
def geoDemo : Geometry :=
  { worldToIndex := fun p => p.map (fun x => x.floor)
    indexToWorld := fun i => i.map (fun z => (z : ℚ))
    isIndexInBounds := fun i dirs =>
      dirs.all (fun d =>
        match i.get? d with
        | some v => decide (0 ≤ v ∧ v < 10)
        | none => false)
    sizeLength := 3 }

/-- A concrete image over `geoDemo` whose slice-0 RSI is (1, 0) and whose
rescaled data range is [0, 100]. -/
def imgDemo : ImageModel :=
  { geometry := geoDemo
    rsiForIndex := fun _ => (1, 0)
    rsi0 := (1, 0)
    bitsStored := 8
    isSigned := false
    secondaryOffset := fun _ => 0
    rescaledRange := (0, 100)
    canQuantify := false
    rescaledValueAt := fun _ => 0
    imageUid := fun _ => "uid" }

/-- A concrete image whose rescaled data range is the flat [100, 100]. -/
def imgFlat : ImageModel :=
  { imgDemo with rescaledRange := (100, 100) }

/-- A per-slice preset and a plain preset used as registry material. -/
def psPreset : Preset := { wl := some [⟨1, 2⟩], perslice := true }

/-- A plain (non-per-slice) preset used as registry material. -/
def plainPreset : Preset := { wl := some [⟨3, 4⟩], perslice := false }

/-- Decidable equality for the result type of `getCurrentWindowLut`,
used to evaluate it at concrete inputs. -/
instance : DecidableEq (Except String (ViewState × List ViewEvent × WindowLut)) :=
  fun a b =>
    match a, b with
    | .ok x, .ok y => decidable_of_iff (x = y) (by simp)
    | .error e, .error f => decidable_of_iff (e = f) (by simp)
    | .ok _, .error _ => isFalse (by simp)
    | .error _, .ok _ => isFalse (by simp)

/-- The View state before the C2 counterexample call: position at the
origin and the window level 40/400 already current, empty LUT cache. -/
def vBeforeC2 : ViewState :=
  { initialViewState with
    currentWl := some ⟨40, 400⟩
    currentPosition := some [0, 0, 0] }

/-- The window LUT produced by the C2 counterexample call: built over the
slice-0 RSI (1, 0) with the current level 40/400 installed. -/
def wlutAfterC2 : WindowLut := ⟨⟨(1, 0), 8⟩, false, some ⟨40, 400⟩⟩

/-- The View state after the C2 counterexample call: as before, with the
one new LUT cached under the slice-0 RSI key (1, 0). -/
def vAfterC2 : ViewState :=
  { vBeforeC2 with windowLuts := [((1, 0), wlutAfterC2)] }

/-!
## Theorems
-/

/-- C5: `setWindowLevel` with width < 1 leaves the whole View state, in
particular the current WindowLevel and preset name, unchanged and fires
no event. -/
theorem setWindowLevel_rejects_small_width (v : ViewState) (c w : ℚ)
    (name : String) (silent : Bool) (h : w < 1) :
    setWindowLevel v c w name silent = (v, []) := by
  simp [setWindowLevel, h]

/-- Witness for C5 at a concrete input. -/
theorem setWindowLevel_rejects_small_width_witness :
    setWindowLevel initialViewState 5 0 "manual" false = (initialViewState, []) :=
  setWindowLevel_rejects_small_width initialViewState 5 0 "manual" false (by norm_num)

/-- C9: `getWindowLevelMinMax` returns width = max - min and
center = min + width/2, clamping the width to 1 first when max - min < 1;
for the flat range [100, 100] this yields width 1 and center 100.5. -/
theorem getWindowLevelMinMax_spec (img : ImageModel) :
    (1 ≤ img.rescaledRange.2 - img.rescaledRange.1 →
      getWindowLevelMinMax img =
        ⟨img.rescaledRange.1 + (img.rescaledRange.2 - img.rescaledRange.1) / 2,
          img.rescaledRange.2 - img.rescaledRange.1⟩) ∧
    (img.rescaledRange.2 - img.rescaledRange.1 < 1 →
      getWindowLevelMinMax img = ⟨img.rescaledRange.1 + 1 / 2, 1⟩) ∧
    (img.rescaledRange = (100, 100) →
      getWindowLevelMinMax img = ⟨201 / 2, 1⟩) := by
  refine ⟨fun h => ?_, fun h => ?_, fun h => ?_⟩
  · simp [getWindowLevelMinMax, if_neg (not_lt.mpr h)]
  · simp [getWindowLevelMinMax, if_pos h]
  · simp [getWindowLevelMinMax, h]
    norm_num

/-- Witness for C9 at the flat image. -/
theorem getWindowLevelMinMax_spec_witness :
    getWindowLevelMinMax imgFlat = ⟨201 / 2, 1⟩ :=
  (getWindowLevelMinMax_spec imgFlat).2.2 rfl

/-- C4: characterization of the diff-dims list: equal lengths give
exactly the differing positions (empty iff the indices are equal);
unequal lengths give the differing positions below the shorter length
plus every position from the shorter to the longer length; no previous
index gives every dimension of the new index. -/
theorem diffDims_characterization :
    (∀ i1 i2 : Index, i1.length = i2.length →
      (∀ d, d ∈ diffDims (some i1) i2 ↔
        d < i1.length ∧ i1.getD d 0 ≠ i2.getD d 0) ∧
      (diffDims (some i1) i2 = [] ↔ i1 = i2)) ∧
    (∀ i1 i2 : Index, i1.length ≠ i2.length →
      ∀ d, d ∈ diffDims (some i1) i2 ↔
        ((d < Nat.min i1.length i2.length ∧ i1.getD d 0 ≠ i2.getD d 0) ∨
          (Nat.min i1.length i2.length ≤ d ∧
            d < Nat.max i1.length i2.length))) ∧
    (∀ (i2 : Index) (d : ℕ), d ∈ diffDims none i2 ↔ d < i2.length) := by
  refine ⟨fun i1 i2 h => ⟨fun d => ?_, ?_⟩, fun i1 i2 h d => ?_, fun i2 d => ?_⟩
  · simp [diffDims, h, compareIdx, List.mem_filter, List.mem_range]
  · constructor
    · intro he
      simp only [diffDims, h, if_pos, compareIdx] at he
      rw [List.filter_eq_nil_iff] at he
      refine List.ext_getElem h (fun n h1 h2 => ?_)
      have := he n (List.mem_range.mpr h2)
      simp only [decide_eq_true_eq, not_not] at this
      rwa [List.getD_eq_getElem i1 0 h1, List.getD_eq_getElem i2 0 h2] at this
    · intro he
      subst he
      simp [diffDims, compareIdx, List.filter_eq_nil_iff]
  · have hmm : Nat.min i1.length i2.length ≤ Nat.max i1.length i2.length :=
      le_trans (Nat.min_le_left _ _) (Nat.le_max_left _ _)
    simp only [diffDims, if_neg h, List.mem_append, List.mem_filter,
      List.mem_range, List.mem_range'_1, decide_eq_true_eq]
    rw [Nat.add_sub_cancel' hmm]
  · simp [diffDims, List.mem_range]

/-- Witness for C4: equal-length emptiness at a concrete pair. -/
theorem diffDims_characterization_witness :
    diffDims (some ([1, 2, 3] : Index)) [1, 2, 3] = [] ↔
      ([1, 2, 3] : Index) = [1, 2, 3] :=
  (diffDims_characterization.1 [1, 2, 3] [1, 2, 3] rfl).2

/-- C3: `setCurrentIndex` on an index that fails the bounds check along
the scroll dimension (and dimension 3 for 4-component indices) returns
false, leaves the state unchanged and fires nothing; on an index that
passes it with silent not requested, it returns true, commits the
converted position, and fires exactly one `positionchange`. -/
theorem setCurrentIndex_bounds_events (img : ImageModel) (v : ViewState)
    (index : Index) :
    (∀ silent, img.geometry.isIndexInBounds index
        ([getScrollIndex v] ++ (if index.length = 4 then [3] else [])) = false →
      setCurrentIndex img v index silent = (v, [], false)) ∧
    (img.geometry.isIndexInBounds index
        ([getScrollIndex v] ++ (if index.length = 4 then [3] else [])) = true →
      (setCurrentIndex img v index false).2.2 = true ∧
      (setCurrentIndex img v index false).1.currentPosition =
        some (img.geometry.indexToWorld index) ∧
      (setCurrentIndex img v index false).2.1.length = 1 ∧
      ∀ e ∈ (setCurrentIndex img v index false).2.1,
        e.isPositionChange = true) := by
  constructor
  · intro silent h
    simp only [List.singleton_append] at h
    simp [setCurrentIndex, h]
  · intro h
    simp only [List.singleton_append] at h
    simp [setCurrentIndex, h, ViewEvent.isPositionChange]

/-- Looking a key up past an appended entry with a different key. -/
lemma getPreset_append_ne (reg : Registry) (k k' : String) (p' : Preset)
    (h : k ≠ k') : getPreset (reg ++ [(k', p')]) k = getPreset reg k := by
  unfold getPreset
  rw [List.find?_append]
  cases hf : reg.find? (fun e => decide (e.1 = k)) with
  | some e => simp [Option.or]
  | none => simp [Option.or, List.find?, Ne.symm h]

/-- Appending under a fresh key makes it found. -/
lemma getPreset_append_self (reg : Registry) (k : String) (p : Preset)
    (h : getPreset reg k = none) : getPreset (reg ++ [(k, p)]) k = some p := by
  unfold getPreset at h ⊢
  rw [List.find?_append]
  rcases Option.map_eq_none'.mp h with hf
  simp [hf, Option.or, List.find?]

/-- Replacing one key leaves lookups of other keys unchanged. -/
lemma getPreset_replace_ne (reg : Registry) (k k' : String) (p' : Preset)
    (h : k ≠ k') : getPreset (replaceEntry reg k' p') k = getPreset reg k := by
  induction reg with
  | nil => rfl
  | cons a t ih =>
    by_cases ha : a.1 = k'
    · have hak : (a.1 = k) = False := by
        simp [ha, Ne.symm h]
      simp only [replaceEntry, List.map_cons, if_pos ha]
      unfold getPreset at ih ⊢
      simp only [List.find?, decide_eq_true_eq, Ne.symm h, hak]
      simpa [replaceEntry] using ih
    · simp only [replaceEntry, List.map_cons, if_neg ha]
      unfold getPreset at ih ⊢
      by_cases hak : a.1 = k
      · simp [List.find?, hak]
      · simp only [List.find?, decide_eq_true_eq, hak]
        simpa [replaceEntry] using ih

/-- Replacing an existing key makes the new value found. -/
lemma getPreset_replace_self (reg : Registry) (k : String) (p : Preset)
    (h : (getPreset reg k).isSome) :
    getPreset (replaceEntry reg k p) k = some p := by
  induction reg with
  | nil => simp [getPreset] at h
  | cons a t ih =>
    by_cases ha : a.1 = k
    · simp [replaceEntry, getPreset, List.find?, ha]
    · simp only [replaceEntry, List.map_cons, if_neg ha]
      unfold getPreset at h ih ⊢
      simp only [List.find?, decide_eq_true_eq, ha] at h ⊢
      simpa [replaceEntry] using ih h

/-- Frame rule: `addWindowPresets` leaves the entry of a key that is not among the
supplied keys untouched. -/
lemma addWindowPresets_frame (L : List (String × Preset)) :
    ∀ (reg : Registry) (k : String), k ∉ L.map Prod.fst →
      getPreset (addWindowPresets reg L).1 k = getPreset reg k := by
  induction L with
  | nil => intro reg k _; rfl
  | cons hd rest ih =>
    obtain ⟨k', p'⟩ := hd
    intro reg k hk
    simp only [List.map_cons, List.mem_cons, not_or] at hk
    obtain ⟨hkk, hkr⟩ := hk
    cases hq : getPreset reg k' with
    | some q =>
      by_cases hps : q.perslice
      · simp [addWindowPresets, hq, hps]
      · simp only [addWindowPresets, hq, if_neg hps]
        rw [ih _ k hkr, getPreset_replace_ne _ _ _ _ hkk]
    | none =>
      simp only [addWindowPresets, hq]
      rw [ih _ k hkr, getPreset_append_ne _ _ _ _ hkk]

/-- C6: with supplied keys pairwise distinct (JS object keys are unique):
if no supplied key names an existing per-slice preset, the call succeeds,
fires exactly one `wlpresetadd` per supplied preset whose name is not yet
in the registry (in order, and none for replaced names), and afterwards
every supplied name maps to the supplied preset; if some supplied key
names an existing per-slice preset, the call fails. -/
theorem addWindowPresets_events_and_failure (reg : Registry)
    (L : List (String × Preset)) (hnd : (L.map Prod.fst).Nodup) :
    ((∀ e ∈ L, ∀ q, getPreset reg e.1 = some q → q.perslice = false) →
      (addWindowPresets reg L).2.2 = false ∧
      (addWindowPresets reg L).2.1 =
        L.filterMap (fun e =>
          if getPreset reg e.1 = none then some (ViewEvent.wlpresetadd e.1)
          else none) ∧
      ∀ e ∈ L, getPreset (addWindowPresets reg L).1 e.1 = some e.2) ∧
    ((∃ e ∈ L, ∃ q, getPreset reg e.1 = some q ∧ q.perslice = true) →
      (addWindowPresets reg L).2.2 = true) := by
  induction L generalizing reg with
  | nil => simp [addWindowPresets]
  | cons hd rest ih =>
    obtain ⟨k, p⟩ := hd
    simp only [List.map_cons, List.nodup_cons] at hnd
    obtain ⟨hk, hndr⟩ := hnd
    have hmemne : ∀ e ∈ rest, (e : String × Preset).1 ≠ k := by
      intro e he heq
      exact hk (heq ▸ List.mem_map_of_mem Prod.fst he)
    constructor
    · intro hok
      have hhd := hok (k, p) (List.mem_cons_self _ _)
      have hrest : ∀ e ∈ rest, ∀ q, getPreset reg e.1 = some q →
          q.perslice = false :=
        fun e he => hok e (List.mem_cons_of_mem _ he)
      cases hq : getPreset reg k with
      | some q =>
        have hqf : q.perslice = false := hhd q hq
        have hqf' : ¬ q.perslice := by simp [hqf]
        have hrest' : ∀ e ∈ rest, ∀ q',
            getPreset (replaceEntry reg k p) e.1 = some q' →
            q'.perslice = false := by
          intro e he q' hq'
          rw [getPreset_replace_ne _ _ _ _ (hmemne e he)] at hq'
          exact hrest e he q' hq'
        obtain ⟨he1, he2, he3⟩ := (ih (replaceEntry reg k p) hndr).1 hrest'
        refine ⟨?_, ?_, ?_⟩
        · simpa [addWindowPresets, hq, hqf'] using he1
        · simp only [addWindowPresets, hq, if_neg hqf']
          rw [he2, List.filterMap_cons_none (by simp [hq])]
          exact List.filterMap_congr (fun e he => by
            rw [getPreset_replace_ne _ _ _ _ (hmemne e he)])
        · intro e he
          rcases List.mem_cons.mp he with he | he
          · subst he
            simp only [addWindowPresets, hq, if_neg hqf']
            rw [addWindowPresets_frame rest _ k hk,
              getPreset_replace_self _ _ _ (by simp [hq])]
          · simpa [addWindowPresets, hq, hqf'] using he3 e he
      | none =>
        have hrest' : ∀ e ∈ rest, ∀ q',
            getPreset (reg ++ [(k, p)]) e.1 = some q' →
            q'.perslice = false := by
          intro e he q' hq'
          rw [getPreset_append_ne _ _ _ _ (hmemne e he)] at hq'
          exact hrest e he q' hq'
        obtain ⟨he1, he2, he3⟩ := (ih (reg ++ [(k, p)]) hndr).1 hrest'
        refine ⟨?_, ?_, ?_⟩
        · simpa [addWindowPresets, hq] using he1
        · simp only [addWindowPresets, hq]
          have hcons : List.filterMap (fun (e : String × Preset) =>
                if getPreset reg e.1 = none then some (ViewEvent.wlpresetadd e.1)
                else none) ((k, p) :: rest)
              = ViewEvent.wlpresetadd k :: List.filterMap
                (fun (e : String × Preset) =>
                  if getPreset reg e.1 = none
                  then some (ViewEvent.wlpresetadd e.1) else none) rest := by
            simp [List.filterMap_cons, hq]
          rw [hcons, he2]
          congr 1
          exact List.filterMap_congr (fun e he => by
            rw [getPreset_append_ne _ _ _ _ (hmemne e he)])
        · intro e he
          rcases List.mem_cons.mp he with he | he
          · subst he
            simp only [addWindowPresets, hq]
            rw [addWindowPresets_frame rest _ k hk,
              getPreset_append_self _ _ _ hq]
          · simpa [addWindowPresets, hq] using he3 e he
    · rintro ⟨e, he, q, hq, hps⟩
      rcases List.mem_cons.mp he with he | he
      · subst he
        simp [addWindowPresets, hq, hps]
      · cases hq' : getPreset reg k with
        | some q' =>
          by_cases hps' : q'.perslice
          · simp [addWindowPresets, hq', hps']
          · have := (ih (replaceEntry reg k p) hndr).2
              ⟨e, he, q, by
                rw [getPreset_replace_ne _ _ _ _ (hmemne e he)]
                exact hq, hps⟩
            simpa [addWindowPresets, hq', hps'] using this
        | none =>
          have := (ih (reg ++ [(k, p)]) hndr).2
            ⟨e, he, q, by
              rw [getPreset_append_ne _ _ _ _ (hmemne e he)]
              exact hq, hps⟩
          simpa [addWindowPresets, hq'] using this

/-- Witness for C6: one new name over an empty registry, and a failing
per-slice overwrite. -/
theorem addWindowPresets_events_and_failure_witness :
    ((addWindowPresets [] [("b", plainPreset)]).2.2 = false ∧
      (addWindowPresets [] [("b", plainPreset)]).2.1 =
        [ViewEvent.wlpresetadd "b"] ∧
      getPreset (addWindowPresets [] [("b", plainPreset)]).1 "b" =
        some plainPreset) ∧
    (addWindowPresets [("a", psPreset)] [("a", plainPreset)]).2.2 = true := by
  refine ⟨?_, ?_⟩
  · obtain ⟨h1, h2, h3⟩ :=
      (addWindowPresets_events_and_failure [] [("b", plainPreset)]
        (by decide)).1
        (by intro e he q hq; simp [getPreset] at hq)
    refine ⟨h1, by simpa [getPreset] using h2, ?_⟩
    simpa using h3 ("b", plainPreset) (by simp)
  · exact (addWindowPresets_events_and_failure [("a", psPreset)]
      [("a", plainPreset)] (by decide)).2
      ⟨("a", plainPreset), by simp, psPreset, by decide, rfl⟩

/-- C7 counterexample: `setWindowPresets` is a public View operation that
replaces the whole registry, removing an installed per-slice preset. -/
theorem setWindowPresets_drops_perslice_counterexample :
    getPreset ((setWindowPresets
        { initialViewState with windowPresets := [("ps", psPreset)] }
        []).windowPresets) "ps" = none ∧
    getPreset [("ps", psPreset)] "ps" = some psPreset ∧
    psPreset.perslice = true := by
  refine ⟨rfl, by decide, rfl⟩

/-- C7 (amended): `addWindowPresets` — whether it succeeds or throws —
never replaces or removes an installed per-slice preset; immutability
holds for that operation, while `setWindowPresets` replaces the registry
wholesale. -/
theorem addWindowPresets_preserves_perslice (reg : Registry)
    (L : List (String × Preset)) (k : String) (q : Preset)
    (hq : getPreset reg k = some q) (hps : q.perslice = true) :
    getPreset (addWindowPresets reg L).1 k = some q := by
  induction L generalizing reg with
  | nil => exact hq
  | cons hd rest ih =>
    obtain ⟨k', p'⟩ := hd
    cases hq' : getPreset reg k' with
    | some q' =>
      by_cases hps' : q'.perslice
      · simpa [addWindowPresets, hq', hps'] using hq
      · have hne : k ≠ k' := by
          intro he
          subst he
          rw [hq] at hq'
          cases hq'
          simp [hps] at hps'
        simp only [addWindowPresets, hq', if_neg hps']
        exact ih _ (by rw [getPreset_replace_ne _ _ _ _ hne]; exact hq)
    | none =>
      have hne : k ≠ k' := by
        intro he
        subst he
        rw [hq] at hq'
        cases hq'
      simp only [addWindowPresets, hq']
      exact ih _ (by rw [getPreset_append_ne _ _ _ _ hne]; exact hq)

/-- Witness for C7's amended theorem at a concrete registry. -/
theorem addWindowPresets_preserves_perslice_witness :
    getPreset (addWindowPresets [("a", psPreset)] [("b", plainPreset)]).1 "a"
      = some psPreset :=
  addWindowPresets_preserves_perslice [("a", psPreset)] [("b", plainPreset)]
    "a" psPreset (by decide) rfl

/-- C8 counterexample: a failing `addWindowPresets` call is not atomic:
with registry `{a: per-slice}` and supplied presets `{b: new, a: …}`, the
call throws on `a` but `b` has already been added (and its event fired). -/
theorem addWindowPresets_not_atomic_counterexample :
    (addWindowPresets [("a", psPreset)]
      [("b", plainPreset), ("a", plainPreset)]).2.2 = true ∧
    getPreset (addWindowPresets [("a", psPreset)]
      [("b", plainPreset), ("a", plainPreset)]).1 "b" = some plainPreset ∧
    getPreset [("a", psPreset)] "b" = none ∧
    (addWindowPresets [("a", psPreset)]
      [("b", plainPreset), ("a", plainPreset)]).2.1 =
      [ViewEvent.wlpresetadd "b"] := by
  refine ⟨by decide, by decide, by decide, by decide⟩

/-- C8 (amended): when `addWindowPresets` throws on a per-slice
overwrite, the supplied presets strictly before the offending key (in
key order) have been applied and their events fired, and nothing from
the offending key onward has been applied: the registry and event list
equal those of a run on the prefix alone. -/
theorem addWindowPresets_stops_at_first_error (reg : Registry)
    (pre post : List (String × Preset)) (k : String) (p q : Preset)
    (hnd : ((pre ++ (k, p) :: post).map Prod.fst).Nodup)
    (hpre : ∀ e ∈ pre, ∀ r, getPreset reg e.1 = some r → r.perslice = false)
    (hq : getPreset reg k = some q) (hps : q.perslice = true) :
    addWindowPresets reg (pre ++ (k, p) :: post) =
      ((addWindowPresets reg pre).1, (addWindowPresets reg pre).2.1, true) := by
  induction pre generalizing reg with
  | nil =>
    simp [addWindowPresets, hq, hps]
  | cons hd rest ih =>
    obtain ⟨k', p'⟩ := hd
    simp only [List.cons_append, List.map_cons, List.nodup_cons] at hnd
    obtain ⟨hk', hndr⟩ := hnd
    have hkk' : k ≠ k' := by
      intro he
      exact hk' (by
        simp only [List.map_append, List.map_cons, List.mem_append,
          List.mem_cons]
        exact Or.inr (Or.inl he.symm))
    cases hq' : getPreset reg k' with
    | some r =>
      have hrf : r.perslice = false := hpre (k', p') (List.mem_cons_self _ _) r hq'
      have hrf' : ¬ r.perslice := by simp [hrf]
      simp only [List.cons_append, addWindowPresets, hq', if_neg hrf']
      exact ih (replaceEntry reg k' p') hndr
        (by
          intro e he r' hr'
          rw [getPreset_replace_ne _ _ _ _ (by
            intro heq
            exact hk' (heq ▸ (by
              simp only [List.map_append, List.map_cons, List.mem_append]
              exact Or.inl (List.mem_map_of_mem Prod.fst he))))] at hr'
          exact hpre e (List.mem_cons_of_mem _ he) r' hr')
        (by rw [getPreset_replace_ne _ _ _ _ hkk']; exact hq)
    | none =>
      simp only [List.cons_append, addWindowPresets, hq']
      have hih := ih (reg ++ [(k', p')]) hndr
        (by
          intro e he r' hr'
          rw [getPreset_append_ne _ _ _ _ (by
            intro heq
            exact hk' (heq ▸ (by
              simp only [List.map_append, List.map_cons, List.mem_append]
              exact Or.inl (List.mem_map_of_mem Prod.fst he))))] at hr'
          exact hpre e (List.mem_cons_of_mem _ he) r' hr')
        (by rw [getPreset_append_ne _ _ _ _ hkk']; exact hq)
      simp only [List.append_eq]
      rw [hih]

/-- Witness for C8's amended theorem at the counterexample input. -/
theorem addWindowPresets_stops_at_first_error_witness :
    addWindowPresets [("a", psPreset)] [("b", plainPreset), ("a", plainPreset)]
      = ((addWindowPresets [("a", psPreset)] [("b", plainPreset)]).1,
        (addWindowPresets [("a", psPreset)] [("b", plainPreset)]).2.1,
        true) :=
  addWindowPresets_stops_at_first_error [("a", psPreset)]
    [("b", plainPreset)] [] "a" plainPreset psPreset (by decide)
    (by intro e he r hr; simp at he; subst he; simp [getPreset] at hr)
    (by decide) rfl

/-- Helper: `setCurrentIndex` never touches the window-LUT cache. -/
lemma setCurrentIndex_windowLuts (img : ImageModel) (v : ViewState)
    (index : Index) (silent : Bool) :
    (setCurrentIndex img v index silent).1.windowLuts = v.windowLuts := by
  simp only [setCurrentIndex]
  repeat' split
  all_goals rfl

/-- Helper: `setWindowLevel` never touches the window-LUT cache. -/
lemma setWindowLevel_windowLuts (v : ViewState) (c w : ℚ) (name : String)
    (silent : Bool) :
    (setWindowLevel v c w name silent).1.windowLuts = v.windowLuts := by
  simp only [setWindowLevel]
  split
  · rfl
  · split
    · split <;> rfl
    · rfl

/-- A successful `setWindowLevelPreset` never touches the window-LUT
cache. -/
lemma setWindowLevelPreset_windowLuts (img : ImageModel) (v : ViewState)
    (name : String) (silent : Bool) (v1 : ViewState) (evts : List ViewEvent)
    (h : setWindowLevelPreset img v name silent = .ok (v1, evts)) :
    v1.windowLuts = v.windowLuts := by
  simp only [setWindowLevelPreset] at h
  split at h
  · cases h
  · split at h
    · cases h
    · rw [Except.ok.injEq] at h
      have hv1 := congrArg (fun p => p.1.windowLuts) h
      simp only at hv1
      rw [setWindowLevel_windowLuts] at hv1
      rw [← hv1]
      split <;> rfl

/-- A successful `setWindowLevelPresetById` never touches the window-LUT
cache. -/
lemma setWindowLevelPresetById_windowLuts (img : ImageModel) (v : ViewState)
    (id : ℕ) (silent : Bool) (v1 : ViewState) (evts : List ViewEvent)
    (h : setWindowLevelPresetById img v id silent = .ok (v1, evts)) :
    v1.windowLuts = v.windowLuts := by
  simp only [setWindowLevelPresetById] at h
  split at h
  · cases h
  · exact setWindowLevelPreset_windowLuts _ _ _ _ _ _ h

/-- A successful `resolveTargetWl` never touches the window-LUT cache. -/
lemma resolveTargetWl_windowLuts (img : ImageModel) (v1 : ViewState)
    (currentIndex : Index) (v2 : ViewState) (evts : List ViewEvent)
    (wl : WindowLevel)
    (h : resolveTargetWl img v1 currentIndex = .ok (v2, evts, wl)) :
    v2.windowLuts = v1.windowLuts := by
  simp only [resolveTargetWl] at h
  split at h
  · rw [Except.ok.injEq] at h
    exact (congrArg (fun p => p.1.windowLuts) h).symm
  · split at h
    · rw [Except.ok.injEq] at h
      exact (congrArg (fun p => p.1.windowLuts) h).symm
    · split at h
      · cases h
      · rename_i vx evtsx hx
        split at h
        · rw [Except.ok.injEq] at h
          have h2 := (congrArg (fun p => p.1.windowLuts) h).symm
          simp only at h2
          rw [h2]
          exact setWindowLevelPresetById_windowLuts _ _ _ _ _ _ hx
        · cases h

/-- Looking an RSI key up past a differently-keyed appended cache entry. -/
lemma lutLookup_append_ne (l : List (RSI × WindowLut)) (rsi rsi' : RSI)
    (w : WindowLut) (h : rsi ≠ rsi') :
    lutLookup (l ++ [(rsi', w)]) rsi = lutLookup l rsi := by
  unfold lutLookup
  rw [List.find?_append]
  cases hf : l.find? (fun e => decide (e.1 = rsi)) with
  | some e => simp [Option.or]
  | none => simp [Option.or, List.find?, Ne.symm h]

/-- In-place replacement of one RSI key leaves other lookups unchanged. -/
lemma lutLookup_mapReplace_ne (rsi rsi' : RSI) (w : WindowLut)
    (h : rsi ≠ rsi') :
    ∀ l : List (RSI × WindowLut),
      lutLookup (l.map (fun e => if e.1 = rsi' then (rsi', w) else e)) rsi
        = lutLookup l rsi := by
  intro l
  induction l with
  | nil => rfl
  | cons a t ih =>
    by_cases ha : a.1 = rsi'
    · have hak : (a.1 = rsi) = False := by
        simp [ha, Ne.symm h]
      unfold lutLookup at ih ⊢
      simp only [List.map_cons, if_pos ha, List.find?, decide_eq_true_eq,
        Ne.symm h, hak]
      simpa using ih
    · unfold lutLookup at ih ⊢
      simp only [List.map_cons, if_neg ha]
      by_cases hak : a.1 = rsi
      · simp [List.find?, hak]
      · simp only [List.find?, decide_eq_true_eq, hak]
        simpa using ih

/-- Storing under an RSI key makes that entry found. -/
lemma lutLookup_store_self (l : List (RSI × WindowLut)) (rsi : RSI)
    (w : WindowLut) : lutLookup (lutStore l rsi w) rsi = some w := by
  unfold lutStore
  split
  · rename_i hfound
    induction l with
    | nil => simp at hfound
    | cons a t ih =>
      by_cases ha : a.1 = rsi
      · simp [lutLookup, List.find?, ha]
      · simp only [List.find?, decide_eq_true_eq, ha] at hfound
        unfold lutLookup at ih ⊢
        simp only [List.map_cons, if_neg ha]
        simpa [ha] using ih hfound
  · rename_i hnone
    unfold lutLookup
    rw [List.find?_append]
    have hf : l.find? (fun e => decide (e.1 = rsi)) = none := by
      cases hf : l.find? (fun e => decide (e.1 = rsi)) with
      | some e => rw [hf] at hnone; simp at hnone
      | none => rfl
    simp [hf, Option.or, List.find?]

/-- Storing under one RSI key leaves other lookups unchanged. -/
lemma lutLookup_store_ne (l : List (RSI × WindowLut)) (rsi rsi' : RSI)
    (w : WindowLut) (h : rsi ≠ rsi') :
    lutLookup (lutStore l rsi' w) rsi = lutLookup l rsi := by
  unfold lutStore
  split
  · exact lutLookup_mapReplace_ne rsi rsi' w h l
  · exact lutLookup_append_ne l rsi rsi' w h

/-- On a cache miss, `updateLutWithWl` builds the fresh LUT over the
slice-0 RSI, ends up storing it (with the target level installed) under
the slice-0 RSI key, and leaves the missed per-call key absent whenever
it differs from the slice-0 key. -/
lemma updateLutWithWl_spec (img : ImageModel) (v2 : ViewState) (rsi : RSI)
    (wl : WindowLevel) (hmiss : lutLookup v2.windowLuts rsi = none) :
    (updateLutWithWl img v2 rsi wl).2.2
      = ⟨⟨img.rsi0, img.bitsStored⟩, img.isSigned, some wl⟩ ∧
    lutLookup (updateLutWithWl img v2 rsi wl).1.windowLuts img.rsi0
      = some (updateLutWithWl img v2 rsi wl).2.2 ∧
    (rsi ≠ img.rsi0 →
      lutLookup (updateLutWithWl img v2 rsi wl).1.windowLuts rsi = none) := by
  have hres : updateLutWithWl img v2 rsi wl
      = ({ addWindowLut v2 ⟨⟨img.rsi0, img.bitsStored⟩, img.isSigned, none⟩ with
            windowLuts := lutStore
              (addWindowLut v2
                ⟨⟨img.rsi0, img.bitsStored⟩, img.isSigned, none⟩).windowLuts
              img.rsi0
              ⟨⟨img.rsi0, img.bitsStored⟩, img.isSigned, some wl⟩ },
          [ViewEvent.wlchange wl.center wl.width true],
          ⟨⟨img.rsi0, img.bitsStored⟩, img.isSigned, some wl⟩) := by
    simp [updateLutWithWl, hmiss, wlEquals]
  refine ⟨by rw [hres], ?_, ?_⟩
  · rw [hres]
    exact lutLookup_store_self _ _ _
  · intro hne
    rw [hres]
    show lutLookup (lutStore (lutStore v2.windowLuts img.rsi0 _) img.rsi0 _)
      rsi = none
    rw [lutLookup_store_ne _ _ _ _ hne, lutLookup_store_ne _ _ _ _ hne]
    exact hmiss

/-- C2: on a cache miss for the per-call RSI, the LUT returned by
`getCurrentWindowLut` is built over the slice-0 RSI and bit depth, it is
cached under the slice-0 RSI key — not the per-call key — and when the
two keys differ the per-call key is still absent afterwards, so a
subsequent call with the same per-call RSI misses again. -/
theorem getCurrentWindowLut_cache_slice0_key (img : ImageModel)
    (v : ViewState) (rsi : RSI) (v' : ViewState) (evts : List ViewEvent)
    (wlut : WindowLut)
    (hmiss : lutLookup v.windowLuts rsi = none)
    (hrun : getCurrentWindowLut img v (some rsi) = .ok (v', evts, wlut)) :
    wlut.rescaleLut = ⟨img.rsi0, img.bitsStored⟩ ∧
    lutLookup v'.windowLuts img.rsi0 = some wlut ∧
    (rsi ≠ img.rsi0 → lutLookup v'.windowLuts rsi = none) := by
  have hv1luts : (if (getCurrentIndex img v).isNone
      then (setInitialIndex img v).1 else v).windowLuts = v.windowLuts := by
    split
    · exact setCurrentIndex_windowLuts img v _ true
    · rfl
  simp only [getCurrentWindowLut, Option.getD_some] at hrun
  split at hrun
  · cases hrun
  · split at hrun
    · cases hrun
    · rename_i v2 evts1 wl hok
      have hv2 : v2.windowLuts = v.windowLuts :=
        (resolveTargetWl_windowLuts _ _ _ _ _ _ hok).trans hv1luts
      have hmiss2 : lutLookup v2.windowLuts rsi = none := by
        rw [hv2]
        exact hmiss
      obtain ⟨s1, s2, s3⟩ := updateLutWithWl_spec img v2 rsi wl hmiss2
      rw [Except.ok.injEq] at hrun
      have hv' : (updateLutWithWl img v2 rsi wl).1 = v' :=
        congrArg (fun p => p.1) hrun
      have hwlut : (updateLutWithWl img v2 rsi wl).2.2 = wlut :=
        congrArg (fun p => p.2.2) hrun
      refine ⟨?_, ?_, ?_⟩
      · rw [← hwlut, s1]
      · rw [← hv', ← hwlut]
        exact s2
      · intro hne
        rw [← hv']
        exact s3 hne

/-- C2 counterexample: calling `getCurrentWindowLut` with per-call RSI
(2, 0) on an image whose slice-0 RSI is (1, 0) stores the new LUT under
the slice-0 key (1, 0); the per-call key (2, 0) remains absent from the
cache, so a subsequent call with the same per-call RSI does not find
it. -/
theorem getCurrentWindowLut_cache_key_counterexample :
    getCurrentWindowLut imgDemo vBeforeC2 (some (2, 0))
      = .ok (vAfterC2, [ViewEvent.wlchange 40 400 true], wlutAfterC2) ∧
    lutLookup vAfterC2.windowLuts (2, 0) = none ∧
    lutLookup vAfterC2.windowLuts (1, 0) = some wlutAfterC2 ∧
    wlutAfterC2.rescaleLut.rsi = (1, 0) := by
  refine ⟨by decide, by decide, by decide, rfl⟩

/-- Witness for C2's theorem at the counterexample input. -/
theorem getCurrentWindowLut_cache_slice0_key_witness :
    wlutAfterC2.rescaleLut = ⟨imgDemo.rsi0, imgDemo.bitsStored⟩ ∧
    lutLookup vAfterC2.windowLuts imgDemo.rsi0 = some wlutAfterC2 ∧
    lutLookup vAfterC2.windowLuts (2, 0) = none :=
  have h := getCurrentWindowLut_cache_slice0_key imgDemo vBeforeC2
    (2, 0) vAfterC2 [ViewEvent.wlchange 40 400 true]
    wlutAfterC2 (by decide) (by decide)
  ⟨h.1, h.2.1, h.2.2 (by decide)⟩

/-- Folding with an `i ≠ p` guard equals folding over the filtered list. -/
lemma foldl_guard_filter (p : ℕ) (f : List ℕ → ℕ → List ℕ) :
    ∀ (l : List ℕ) (r0 : List ℕ),
      l.foldl (fun r i => if i ≠ p then f r i else r) r0
        = (l.filter (fun i => decide (i ≠ p))).foldl f r0 := by
  intro l
  induction l with
  | nil => intro r0; rfl
  | cons a t ih =>
    intro r0
    rw [List.foldl_cons, List.filter_cons]
    by_cases ha : a = p
    · rw [if_neg (fun h => h ha), if_neg (by simp [ha])]
      exact ih r0
    · rw [if_pos ha, if_pos (by simp [ha]), List.foldl_cons]
      exact ih (f r0 a)

/-- Erasing every element of a list from itself leaves nothing. -/
lemma eraseFold_self : ∀ l : List ℕ, l.foldl (fun r i => r.erase i) l = [] := by
  intro l
  induction l with
  | nil => rfl
  | cons a t ih =>
    rw [List.foldl_cons, List.erase_cons_head]
    exact ih

/-- Folding appends collects the list onto the accumulator. -/
lemma appendFold : ∀ (l r0 : List ℕ), l.foldl (fun r i => r ++ [i]) r0 = r0 ++ l := by
  intro l
  induction l with
  | nil => intro r0; simp
  | cons a t ih =>
    intro r0
    rw [List.foldl_cons, ih]
    simp

/-- Removing peer `p`'s forwarding listeners from the fully bound rows
empties exactly row `p`. -/
lemma removeListeners_bound (n p : ℕ) :
    removeListeners n p (boundRows n) = Function.update (boundRows n) p [] := by
  unfold removeListeners
  have h : (List.range n).foldl (fun r i => if i ≠ p then r.erase i else r)
      (boundRows n p) = [] := by
    rw [foldl_guard_filter]
    exact eraseFold_self _
  rw [h]

/-- Re-adding peer `p`'s forwarding listeners onto an emptied row `p`
restores exactly the bound row. -/
lemma addListeners_restore (n p : ℕ) (rows : ℕ → List ℕ) (h : rows p = []) :
    addListeners n p rows = Function.update rows p (boundRows n p) := by
  unfold addListeners
  have h2 : (List.range n).foldl (fun r i => if i ≠ p then r ++ [i] else r)
      (rows p) = boundRows n p := by
    rw [foldl_guard_filter, h, appendFold, List.nil_append]
    rfl
  rw [h2]

/-- A dispatch on a group with no registered listeners is a no-op. -/
lemma fireWl_empty (n fuel g : ℕ) (s : StageSt) (h : s.rows g = []) :
    fireWl n fuel g s = s := by
  cases fuel with
  | zero => rfl
  | succ f => simp [fireWl, h]

/-- One binder-callback invocation from the fully bound state: the echo
dispatch on the suppressed peer invokes nothing, the peer's mutation
count goes up by one, and the listener rows end up fully bound again. -/
lemma stepPeer_bound (n fuel p : ℕ) (m : ℕ → ℕ) :
    stepPeerWith n (fun g t => fireWl n fuel g t) ⟨boundRows n, m⟩ p
      = ⟨boundRows n, Function.update m p (m p + 1)⟩ := by
  simp only [stepPeerWith, removeListeners_bound]
  rw [fireWl_empty n fuel p _ (by simp)]
  rw [addListeners_restore n p _ (by simp)]
  rw [Function.update_idem, Function.update_eq_self]

/-- Running the callbacks of a peer list from the fully bound state bumps
each listed peer's mutation count by its multiplicity and leaves the
rows fully bound. -/
lemma foldl_stepPeer (n fuel : ℕ) (L : List ℕ) : ∀ m : ℕ → ℕ,
    L.foldl (stepPeerWith n (fun g t => fireWl n fuel g t)) ⟨boundRows n, m⟩
      = ⟨boundRows n, fun q => m q + L.count q⟩ := by
  induction L with
  | nil =>
    intro m
    simp
  | cons p t ih =>
    intro m
    rw [List.foldl_cons, stepPeer_bound, ih]
    congr 1
    funext q
    rw [List.count_cons]
    by_cases hq : q = p
    · subst hq
      simp only [Function.update_same, beq_self_eq_true, if_pos]
      omega
    · simp only [Function.update_noteq hq]
      have : (p == q) = false := by
        simp [Ne.symm hq]
      rw [this]
      simp

/-- C1: with `n` bound layer groups and a window/level Binder active,
firing a `wlchange` on group `A` mutates each other group exactly once,
mutates `A` zero times (no re-entrant echo), and restores every
forwarding-listener row, whatever re-entrant dispatch depth (fuel) is
allowed. -/
theorem stage_wlchange_no_echo (n fuel A : ℕ) (_hA : A < n) :
    (fireWl n (fuel + 1) A (initStage n)).muts A = 0 ∧
    (∀ p, p < n → p ≠ A → (fireWl n (fuel + 1) A (initStage n)).muts p = 1) ∧
    (fireWl n (fuel + 1) A (initStage n)).rows = boundRows n := by
  have hfire : fireWl n (fuel + 1) A (initStage n)
      = ⟨boundRows n, fun q => 0 + (boundRows n A).count q⟩ := by
    have h0 : fireWl n (fuel + 1) A (initStage n)
        = ((initStage n).rows A).foldl
            (stepPeerWith n (fun g t => fireWl n fuel g t)) (initStage n) := rfl
    rw [h0]
    exact foldl_stepPeer n fuel (boundRows n A) (fun _ => 0)
  have hnodup : (boundRows n A).Nodup :=
    (List.nodup_range n).filter _
  refine ⟨?_, ?_, ?_⟩
  · rw [hfire]
    have : A ∉ boundRows n A := by
      simp [boundRows, List.mem_filter]
    simp [List.count_eq_zero.mpr this]
  · intro p hp hpA
    rw [hfire]
    have hmem : p ∈ boundRows n A := by
      simp [boundRows, List.mem_filter, List.mem_range, hp, hpA]
    simp [List.count_eq_one_of_mem hnodup hmem]
  · rw [hfire]

/-- Witness for C1 with three layer groups, firing on group 0. -/
theorem stage_wlchange_no_echo_witness :
    (fireWl 3 1 0 (initStage 3)).muts 0 = 0 ∧
    (fireWl 3 1 0 (initStage 3)).muts 1 = 1 ∧
    (fireWl 3 1 0 (initStage 3)).muts 2 = 1 :=
  ⟨(stage_wlchange_no_echo 3 0 0 (by norm_num)).1,
    (stage_wlchange_no_echo 3 0 0 (by norm_num)).2.1 1 (by norm_num) (by norm_num),
    (stage_wlchange_no_echo 3 0 0 (by norm_num)).2.1 2 (by norm_num) (by norm_num)⟩

/-- C10 counterexample: the callback obtained for (binder 0, peer 1)
after a first `bindLayerGroups` is not the one obtained after an
unbind/rebind cycle: `bindLayerGroups` recreates the callback store, so
references are not reused across cycles. -/
theorem binder_callback_not_memoized_across_cycles :
    callbackIdFor (bindLayerGroups 2 [0] initBindSt) 0 1 = some 0 ∧
    callbackIdFor (bindLayerGroups 2 [0] (unbindLayerGroups 2 [0]
      (bindLayerGroups 2 [0] initBindSt))) 0 1 = some 2 ∧
    callbackIdFor (bindLayerGroups 2 [0] initBindSt) 0 1 ≠
      callbackIdFor (bindLayerGroups 2 [0] (unbindLayerGroups 2 [0]
        (bindLayerGroups 2 [0] initBindSt))) 0 1 := by
  refine ⟨by decide, by decide, by decide⟩

/-- C10 (amended): within a single bound period `getBinderCallback` is
memoized — a repeated query for the same (binder, peer) pair returns the
identical callback and leaves the store unchanged — which makes
unbinding remove exactly the listeners that binding registered; but the
store is recreated by each `bindLayerGroups` call, so references are not
reused across bind/unbind cycles. -/
theorem binder_callback_memoized_while_bound :
    (∀ (rows : CbRows) (nextCb binder idx : ℕ),
      getBinderCallback (getBinderCallback rows nextCb binder idx).2.1
        (getBinderCallback rows nextCb binder idx).2.2 binder idx
        = getBinderCallback rows nextCb binder idx) ∧
    (unbindLayerGroups 2 [0] (bindLayerGroups 2 [0] initBindSt)).listeners
      = [] := by
  constructor
  · intro rows nextCb binder idx
    cases hf : (rows idx).find? (fun e => decide (e.1 = binder)) with
    | some e => simp [getBinderCallback, hf]
    | none =>
      have hsecond : ((Function.update rows idx
          (rows idx ++ [(binder, nextCb)])) idx).find?
          (fun e => decide (e.1 = binder)) = some (binder, nextCb) := by
        rw [Function.update_same, List.find?_append, hf]
        simp [List.find?, Option.or]
      simp [getBinderCallback, hf, hsecond]
  · decide

/-- Witness for C3 at concrete in- and out-of-bounds indices. -/
theorem setCurrentIndex_bounds_events_witness :
    setCurrentIndex imgDemo initialViewState [1, 2, 30] true
      = (initialViewState, [], false) ∧
    (setCurrentIndex imgDemo initialViewState [1, 2, 3] false).2.2 = true ∧
    (setCurrentIndex imgDemo initialViewState [1, 2, 3] false).2.1.length = 1 :=
  ⟨(setCurrentIndex_bounds_events imgDemo initialViewState [1, 2, 30]).1 true
      (by decide),
    ((setCurrentIndex_bounds_events imgDemo initialViewState [1, 2, 3]).2
      (by decide)).1,
    ((setCurrentIndex_bounds_events imgDemo initialViewState [1, 2, 3]).2
      (by decide)).2.2.1⟩

end Dwv
